import Mathlib

/-!
Verification development for the ClawKangsar core (Go sources).

This file gives a shallow embedding, in Lean 4, of the parts of the
repository that the specification talks about:

* the string helpers the Go code uses (`strings.TrimSpace`,
  `strings.HasPrefix`, `strings.ToLower`, byte slicing) are embedded as
  functions on Lean `String` viewed as its list of characters (the Go
  code only ever slices at ASCII boundaries in the modelled paths);
* `internal/core/agent.go`: `messageSessionKey`, `truncate`,
  `Agent.remember` (bounded in-memory buffer + session fan-out) and
  `Agent.Process` (command dispatch);
* the session store (`SessionStore`): `AddMessage`, `History`,
  `SessionCount`, `TotalMessageCount`, `Save` (filename sanitation and
  validity check, and the write-temp/sync/close/rename file protocol);
* `internal/tools/webfetch.go`: `normalizeWebURL` on top of a model of
  Go `net/url.Parse` (restricted to scheme/authority splitting, without
  percent-encoding, query/fragment and host-character validation, which
  the checked claims never exercise);
* the browser lifecycle manager `acquireBrowser` (its whole body runs
  under the instance mutex, so concurrent calls execute as a sequence
  of atomic calls; the embedding makes each call one atomic step).

Timestamps are modelled as natural numbers (Go `time.Time` with
`IsZero` becoming `= 0`).
-/

/-- Character class of Go `unicode.IsSpace` restricted to the ASCII
whitespace characters (the only ones the claims exercise). -/
def goIsSpace (c : Char) : Bool :=
  c = ' ' || c = '\t' || c = '\n' || c = '\r' || c = '\x0b' || c = '\x0c'

/-- Go `strings.TrimSpace` on the character list: drop whitespace from
both ends. -/
def trimSpaceL (l : List Char) : List Char :=
  (((l.dropWhile goIsSpace).reverse.dropWhile goIsSpace).reverse)

/-- Go `strings.TrimSpace`. -/
def trimSpace (s : String) : String :=
  ⟨trimSpaceL s.data⟩

/-- Go `strings.HasPrefix`. -/
def goHasPrefix (s pre : String) : Bool :=
  pre.data.isPrefixOf s.data

/-- Go `strings.ToLower` (character-wise; ASCII suffices here). -/
def goToLower (s : String) : String :=
  ⟨s.data.map Char.toLower⟩

/-- Go byte-slicing `s[:n]` (char-level; the modelled code slices only
at ASCII boundaries). -/
def stringTake (s : String) (n : Nat) : String :=
  ⟨s.data.take n⟩

/-- Go byte-slicing `s[n:]` (char-level). -/
def stringDrop (s : String) (n : Nat) : String :=
  ⟨s.data.drop n⟩

/-- Go `strings.Contains` (substring containment). -/
def goContains (s sub : String) : Bool :=
  decide (sub.data <:+: s.data)

/-- One inbound or stored chat turn (`internal/core/message.go`,
`core.Message`); the timestamp is modelled as a `Nat`. -/
structure Message where
  channel : String
  userID : String
  chatID : String
  text : String
  timestamp : Nat
deriving DecidableEq

/-- `messageSessionKey` from `internal/core/agent.go`: derives the
session key of a message. -/
def messageSessionKey (m : Message) : String :=
  if trimSpace m.channel ≠ "" ∧ trimSpace m.chatID ≠ "" then
    m.channel ++ ":" ++ m.chatID
  else if trimSpace m.userID ≠ "" then
    "user:" ++ trimSpace m.userID
  else
    "global"

/-- `truncate` from `internal/core/agent.go`: cap tool-derived text at
`max` characters, appending a marker when truncated. -/
def truncate (text : String) (max : Nat) : String :=
  if text.length ≤ max then text else stringTake text max ++ "..."

/-- The in-memory buffer step of `Agent.remember`
(`internal/core/agent.go`): append the message and drop the oldest
entries beyond `maxMemory`. -/
def rememberMemory (maxMemory : Nat) (memory : List Message) (m : Message) : List Message :=
  let memory' := memory ++ [m]
  if maxMemory < memory'.length then memory'.drop (memory'.length - maxMemory) else memory'

/-- `NewAgent` (`internal/core/agent.go`) fixes `maxMemory` to 128. -/
def newAgentMaxMemory : Nat := 128

section TrimLemmas

theorem dropWhile_dropWhile (p : Char → Bool) (l : List Char) :
    (l.dropWhile p).dropWhile p = l.dropWhile p := by
  induction l with
  | nil => rfl
  | cons c t ih =>
    by_cases h : p c
    · simp [List.dropWhile_cons, h, ih]
    · simp [List.dropWhile_cons, h]

theorem head?_dropWhile_not (p : Char → Bool) (l : List Char) (c : Char)
    (h : (l.dropWhile p).head? = some c) : p c = false := by
  induction l with
  | nil => simp [List.dropWhile] at h
  | cons a t ih =>
    by_cases hp : p a
    · simp [List.dropWhile_cons, hp] at h
      exact ih h
    · simp [List.dropWhile_cons, hp] at h
      subst h
      simpa using hp

theorem dropWhile_eq_self_of_head (p : Char → Bool) (l : List Char)
    (h : ∀ c, l.head? = some c → p c = false) : l.dropWhile p = l := by
  cases l with
  | nil => rfl
  | cons a t =>
    have := h a rfl
    simp [List.dropWhile_cons, this]

/-- If both ends of a character list are non-space it is trim-clean. -/
theorem trimSpaceL_eq_self (l : List Char)
    (hh : ∀ c, l.head? = some c → goIsSpace c = false)
    (hl : ∀ c, l.getLast? = some c → goIsSpace c = false) :
    trimSpaceL l = l := by
  unfold trimSpaceL
  rw [dropWhile_eq_self_of_head _ _ hh]
  rw [dropWhile_eq_self_of_head]
  · exact l.reverse_reverse
  · intro c hc
    rw [List.head?_reverse] at hc
    exact hl c hc

theorem dropWhile_suffix' (p : Char → Bool) (l : List Char) :
    ∃ t, t ++ l.dropWhile p = l := by
  induction l with
  | nil => exact ⟨[], rfl⟩
  | cons a t ih =>
    by_cases hp : p a
    · obtain ⟨u, hu⟩ := ih
      exact ⟨a :: u, by simp [List.dropWhile_cons, hp, hu]⟩
    · exact ⟨[], by simp [List.dropWhile_cons, hp]⟩

theorem getLast?_dropWhile (p : Char → Bool) (l : List Char)
    (h : l.dropWhile p ≠ []) : (l.dropWhile p).getLast? = l.getLast? := by
  obtain ⟨t, ht⟩ := dropWhile_suffix' p l
  conv_rhs => rw [← ht]
  exact (List.getLast?_append_of_ne_nil t h).symm

/-- The head of a trimmed list is non-space. -/
theorem trimSpaceL_head (l : List Char) (c : Char)
    (h : (trimSpaceL l).head? = some c) : goIsSpace c = false := by
  unfold trimSpaceL at h
  rw [List.head?_reverse] at h
  have hne : ((l.dropWhile goIsSpace).reverse.dropWhile goIsSpace) ≠ [] := by
    intro hcon
    rw [hcon] at h
    simp at h
  rw [getLast?_dropWhile _ _ hne] at h
  rw [List.getLast?_reverse] at h
  exact head?_dropWhile_not _ _ _ h

/-- The last element of a trimmed list is non-space. -/
theorem trimSpaceL_getLast (l : List Char) (c : Char)
    (h : (trimSpaceL l).getLast? = some c) : goIsSpace c = false := by
  unfold trimSpaceL at h
  rw [List.getLast?_reverse] at h
  exact head?_dropWhile_not _ _ _ h

/-- Go `TrimSpace` is idempotent. -/
theorem trimSpaceL_idem (l : List Char) : trimSpaceL (trimSpaceL l) = trimSpaceL l :=
  trimSpaceL_eq_self _ (trimSpaceL_head l) (trimSpaceL_getLast l)

theorem trimSpace_idem (s : String) : trimSpace (trimSpace s) = trimSpace s := by
  unfold trimSpace
  exact congrArg String.mk (trimSpaceL_idem s.data)

theorem mem_dropWhile_of_mem (p : Char → Bool) (l : List Char) (c : Char)
    (hc : c ∈ l) (hp : p c = false) : c ∈ l.dropWhile p := by
  induction l with
  | nil => simp at hc
  | cons a t ih =>
    by_cases ha : p a
    · rw [List.dropWhile_cons_of_pos ha]
      rcases List.mem_cons.mp hc with h | h
      · exact absurd (h ▸ ha) (by simp [hp])
      · exact ih h
    · rw [List.dropWhile_cons_of_neg ha]
      exact hc

/-- Non-space characters survive trimming. -/
theorem mem_trimSpaceL_of_mem (l : List Char) (c : Char)
    (hc : c ∈ l) (hp : goIsSpace c = false) : c ∈ trimSpaceL l := by
  unfold trimSpaceL
  rw [List.mem_reverse]
  apply mem_dropWhile_of_mem _ _ _ _ hp
  rw [List.mem_reverse]
  exact mem_dropWhile_of_mem _ _ _ hc hp

end TrimLemmas

/-- The durable unit of conversation history (`Session` in the session
store source): key, ordered messages, created/updated timestamps. -/
structure Session where
  key : String
  messages : List Message
  created : Nat
  updated : Nat
deriving DecidableEq

/-- The session store state (`SessionStore`): configured storage root,
in-memory session map (modelled as an insertion-ordered association
list, matching a Go map with unique keys), and the on-disk files under
the storage root (filename, persisted snapshot; JSON marshalling is
modelled as storing the snapshot itself). -/
structure SessionStore where
  storage : String
  sessions : List (String × Session)
  disk : List (String × Session)
deriving DecidableEq

/-- Go map lookup `s.sessions[key]`. -/
def lookupSession (l : List (String × Session)) (k : String) : Option Session :=
  (l.find? (fun e => e.1 = k)).map (fun e => e.2)

/-- The key normalisation at the top of `AddMessage` and `History`:
trim, and use "global" for a blank key. -/
def canonicalKey (sessionKey : String) : String :=
  let key := trimSpace sessionKey
  if key = "" then "global" else key

/-- The in-memory mutation of `AddMessage`: create the session if
absent (fresh sessions get `created`/`updated` set to now), append the
message, update `updated`. -/
def appendToSession (now : Nat) (m : Message) : List (String × Session) → String → List (String × Session)
  | [], key => [(key, { key := key, messages := [m], created := now, updated := now })]
  | (k, s) :: rest, key =>
    if k = key then
      (k, { s with messages := s.messages ++ [m], updated := now }) :: rest
    else
      (k, s) :: appendToSession now m rest key

/-- `sanitizeSessionFilename`: trim the key and substitute every colon
with an underscore. -/
def sanitizeSessionFilename (key : String) : String :=
  ⟨(trimSpace key).data.map (fun c => if c = ':' then '_' else c)⟩

/-- Split a character list at every slash. -/
def splitOnSlashL : List Char → List String
  | [] => [""]
  | c :: rest =>
    if c = '/' then "" :: splitOnSlashL rest
    else
      match splitOnSlashL rest with
      | [] => [⟨[c]⟩]
      | s :: ss => (⟨c :: s.data⟩) :: ss

/-- Split a string at every slash (Go `strings.Cut`-loop over "/"). -/
def splitOnSlash (s : String) : List String :=
  splitOnSlashL s.data

/-- Join path elements with slashes. -/
def joinSlash : List String → String
  | [] => ""
  | [s] => s
  | s :: rest => s ++ "/" ++ joinSlash rest

/-- The element-stack step of Go `path.Clean` for relative paths. -/
def cleanParts : List String → List String → List String
  | [], acc => acc.reverse
  | e :: rest, acc =>
    if e = "" || e = "." then cleanParts rest acc
    else if e = ".." then
      match acc with
      | [] => cleanParts rest [".."]
      | a :: tl => if a = ".." then cleanParts rest (".." :: a :: tl) else cleanParts rest tl
    else cleanParts rest (e :: acc)

/-- Go `path/filepath.Clean` restricted to relative (non-rooted)
paths, which is the only way `unixIsLocal` calls it. -/
def goCleanRel (p : String) : String :=
  let parts := cleanParts (splitOnSlash p) []
  if parts = [] then "." else joinSlash parts

/-- Go `path/filepath.IsLocal` on Unix. -/
def unixIsLocal (path : String) : Bool :=
  if path = "" then false
  else if goHasPrefix path "/" then false
  else
    let hasDots := (splitOnSlash path).any (fun part => part = "." || part = "..")
    let cleaned := if hasDots then goCleanRel path else path
    !(cleaned = ".." || goHasPrefix cleaned "../")

/-- The filename rejection condition at the top of `SessionStore.Save`:
"." , non-local names, and names containing a path separator
(`filename == "." || !filepath.IsLocal(filename) ||
strings.ContainsAny(filename, ...)`). -/
def invalidSaveFilename (filename : String) : Bool :=
  filename = "." || !unixIsLocal filename ||
    filename.data.any (fun c => c = '/' || c = '\\')

/-- A filename `Save` accepts. -/
def validSaveFilename (filename : String) : Bool :=
  !invalidSaveFilename filename

/-- Assoc-list file write: rename-over-target replaces the previous
content of the file, keeping other files. -/
def diskWrite (disk : List (String × Session)) (name : String) (content : Session) : List (String × Session) :=
  match disk with
  | [] => [(name, content)]
  | (n, c) :: rest => if n = name then (n, content) :: rest else (n, c) :: diskWrite rest name content

/-- `SessionStore.Save`: no-op without a storage root; reject invalid
filenames with Go `os.ErrInvalid` ("invalid argument") before touching
the disk; otherwise snapshot the session and persist it (the
temp-write/sync/close/rename sequence that realises this disk update is
modelled step-by-step by `saveOps` below). -/
def saveSession (st : SessionStore) (sessionKey : String) : SessionStore × Except String Unit :=
  if st.storage = "" then (st, .ok ())
  else
    let filename := sanitizeSessionFilename sessionKey
    if invalidSaveFilename filename then
      (st, .error "invalid argument")
    else
      match lookupSession st.sessions sessionKey with
      | none => (st, .ok ())
      | some sess => ({ st with disk := diskWrite st.disk (filename ++ ".json") sess }, .ok ())

/-- `SessionStore.AddMessage`: canonicalise the key, append the message
in memory (creating the session when absent), then persist via `Save`,
returning its error, if any. -/
def addMessage (now : Nat) (st : SessionStore) (sessionKey : String) (m : Message) : SessionStore × Except String Unit :=
  let key := canonicalKey sessionKey
  let st' := { st with sessions := appendToSession now m st.sessions key }
  saveSession st' key

/-- `SessionStore.History`: canonicalise the key and return a copy of
the stored message sequence (empty when the key is unknown). -/
def history (st : SessionStore) (sessionKey : String) : List Message :=
  match lookupSession st.sessions (canonicalKey sessionKey) with
  | none => []
  | some s => s.messages

/-- `SessionStore.SessionCount`. -/
def sessionCount (st : SessionStore) : Nat :=
  st.sessions.length

/-- `SessionStore.TotalMessageCount`. -/
def totalMessageCount (st : SessionStore) : Nat :=
  (st.sessions.map (fun e => e.2.messages.length)).sum

/-- The session fan-out of `Agent.remember`: persist under the derived
key, and additionally under "global" when the derived key differs
(persistence errors are discarded, as in the Go code). -/
def persistMessage (now : Nat) (st : SessionStore) (m : Message) : SessionStore :=
  let sessionKey := messageSessionKey m
  let st1 := (addMessage now st sessionKey m).1
  if sessionKey ≠ "global" then (addMessage now st1 "global" m).1 else st1

/-- The file operations performed by the body of `SessionStore.Save`
after the validity check, acting on the target file of one session key
and the fresh temp file. -/
inductive FileOp where
  | createTemp
  | writeTemp (data : String)
  | chmodTemp
  | syncTemp
  | closeTemp
  | renameTemp
  | removeTemp
deriving DecidableEq

/-- The on-disk state relevant to one `Save` call: the content of the
target `<key>.json` file (none when absent) and of the temp file. -/
structure FileSystem where
  target : Option String
  temp : Option String
deriving DecidableEq

/-- Effect of one file operation.  `createTemp` makes an empty temp
file, `writeTemp` appends to it, `renameTemp` atomically replaces the
target with the temp file, `removeTemp` deletes the temp file;
`chmodTemp`, `syncTemp` and `closeTemp` do not change contents. -/
def applyOp (fs : FileSystem) : FileOp → FileSystem
  | .createTemp => { fs with temp := some "" }
  | .writeTemp d => { fs with temp := fs.temp.map (fun c => c ++ d) }
  | .chmodTemp => fs
  | .syncTemp => fs
  | .closeTemp => fs
  | .renameTemp =>
    match fs.temp with
    | some c => { target := some c, temp := none }
    | none => fs
  | .removeTemp => { fs with temp := none }

/-- Run a sequence of file operations. -/
def applyOps (fs : FileSystem) (ops : List FileOp) : FileSystem :=
  ops.foldl applyOp fs

/-- The operation sequence of a successful `SessionStore.Save` for a
marshalled payload: create temp, write the full payload, chmod, sync,
close, then rename over the target (translated from the Save body). -/
def saveOps (payload : String) : List FileOp :=
  [.createTemp, .writeTemp payload, .chmodTemp, .syncTemp, .closeTemp, .renameTemp]

/-- Browser lifecycle state (`Browser` in `TODO.md`): the live handle
identity, if any, and how many start attempts have run.  Handle
identities are numbered by the start attempt that created them. -/
structure BrowserState where
  browserCtx : Option Nat
  startCount : Nat
deriving DecidableEq

/-- The browser manager before any acquisition. -/
def initBrowserState : BrowserState :=
  { browserCtx := none, startCount := 0 }

/-- `Browser.acquireBrowser`: the whole body holds the mutex, so each
call is one atomic step.  A live handle is returned as-is; otherwise a
start attempt runs, whose success is given by the environment schedule
`startOutcome` (indexed by attempt number); a failed start tears the
partial resources down and leaves no handle. -/
def acquireBrowser (startOutcome : Nat → Bool) (b : BrowserState) : Except String Nat × BrowserState :=
  match b.browserCtx with
  | some ctx => (.ok ctx, b)
  | none =>
    let attempt := b.startCount
    if startOutcome attempt then
      (.ok attempt, { browserCtx := some attempt, startCount := attempt + 1 })
    else
      (.error "start browser", { browserCtx := none, startCount := attempt + 1 })

/-- N serialized `Acquire` calls (the mutex serializes concurrent
callers); returns the reply of each call in order and the final
state. -/
def runAcquires (startOutcome : Nat → Bool) : Nat → BrowserState → List (Except String Nat) × BrowserState
  | 0, b => ([], b)
  | n + 1, b =>
    let r := acquireBrowser startOutcome b
    let rest := runAcquires startOutcome n r.2
    (r.1 :: rest.1, rest.2)

/-- A parsed Go URL (`net/url.URL` restricted to the fields the fetch
path reads): scheme, opaque part, host, path. -/
structure GoURL where
  scheme : String
  opq : String
  host : String
  path : String
deriving DecidableEq

def isSchemeLetter (c : Char) : Bool :=
  ('a' ≤ c && c ≤ 'z') || ('A' ≤ c && c ≤ 'Z')

def isSchemeExtra (c : Char) : Bool :=
  ('0' ≤ c && c ≤ '9') || c = '+' || c = '-' || c = '.'

/-- Scanner of Go `net/url.getScheme`: split "scheme:rest", erroring
on a leading colon, and treating a URL whose candidate scheme contains
other characters as scheme-less. -/
def getSchemeAux (orig : String) : List Char → List Char → Except String (String × String)
  | [], _ => .ok ("", orig)
  | c :: rest, acc =>
    if isSchemeLetter c then getSchemeAux orig rest (acc ++ [c])
    else if isSchemeExtra c then
      if acc = [] then .ok ("", orig) else getSchemeAux orig rest (acc ++ [c])
    else if c = ':' then
      if acc = [] then .error "missing protocol scheme"
      else .ok (⟨acc⟩, ⟨rest⟩)
    else .ok ("", orig)

/-- Go `net/url.getScheme`. -/
def getScheme (rawURL : String) : Except String (String × String) :=
  getSchemeAux rawURL rawURL.data []

/-- The characters after the last at-sign (Go `parseAuthority` host
extraction; userinfo is dropped). -/
def afterLastAt (l : List Char) : List Char :=
  match l with
  | [] => []
  | c :: rest =>
    if rest.contains '@' then afterLastAt rest
    else if c = '@' then rest else c :: rest

/-- Model of Go `net/url.Parse`, restricted to scheme and authority
splitting: the scheme is lowercased; a scheme-ful URL whose rest does
not start with a slash is opaque; an authority follows a double slash
and extends to the next slash, with the host the part after the last
at-sign.  Query/fragment splitting, percent-decoding and
host-character/port validation are omitted (no checked claim exercises
them). -/
def parseURL (rawURL : String) : Except String GoURL :=
  match getScheme rawURL with
  | .error e => .error e
  | .ok (scheme0, rest) =>
    let scheme := goToLower scheme0
    if ¬ goHasPrefix rest "/" then
      if scheme ≠ "" then .ok { scheme := scheme, opq := rest, host := "", path := "" }
      else if (rest.data.takeWhile (fun c => c ≠ '/')).contains ':' then
        .error "first path segment in URL cannot contain colon"
      else .ok { scheme := scheme, opq := "", host := "", path := rest }
    else if goHasPrefix rest "//" && (scheme ≠ "" || ¬ goHasPrefix rest "///") then
      let after := stringDrop rest 2
      let authority : List Char := after.data.takeWhile (fun c => c ≠ '/')
      let pathRest : List Char := after.data.dropWhile (fun c => c ≠ '/')
      .ok { scheme := scheme, opq := "", host := ⟨afterLastAt authority⟩, path := ⟨pathRest⟩ }
    else
      .ok { scheme := scheme, opq := "", host := "", path := rest }

/-- Go `net/url.URL.String()` for the modelled fields. -/
def urlString (u : GoURL) : String :=
  (if u.scheme ≠ "" then u.scheme ++ ":" else "") ++
  (if u.opq ≠ "" then u.opq
   else
     (if (u.scheme ≠ "" || u.host ≠ "") && (u.host ≠ "" || u.path ≠ "") then "//" else "") ++
     u.host ++ u.path)

/-- Prepend "https://" when the value has no scheme separator
(`normalizeWebURL`, step 2). -/
def ensureScheme (value : String) : String :=
  if goContains value "://" then value else "https://" ++ value

/-- `normalizeWebURL` from `internal/tools/webfetch.go` (identical to
`normalizeURL` of the browser tool): trim, default the scheme to
https, parse, and require an http/https scheme and a non-empty host. -/
def normalizeWebURL (rawURL : String) : Except String String :=
  let value := trimSpace rawURL
  if value = "" then .error "url is required"
  else
    let value2 := ensureScheme value
    match parseURL value2 with
    | .error e => .error ("invalid url: " ++ e)
    | .ok parsed =>
      if parsed.scheme ≠ "http" ∧ parsed.scheme ≠ "https" then
        .error "only http/https urls are supported"
      else if parsed.host = "" then .error "url host is required"
      else .ok (urlString parsed)

/-- `WebFetcher.Fetch` up to the network boundary: validate/normalize
first and perform no request on a validation error.  The transport
argument abstracts the HTTP round-trip and body processing; the second
component counts performed requests. -/
def webFetchFetch (transport : String → Except String String) (rawURL : String) : (Except String String) × Nat :=
  match normalizeWebURL rawURL with
  | .error e => (.error e, 0)
  | .ok target =>
    match transport target with
    | .error e => (.error ("fetch " ++ target ++ ": " ++ e), 1)
    | .ok text => (.ok text, 1)

/-- Agent state (`core.Agent`): bounded in-memory buffer, its capacity,
and the optional session store. -/
structure AgentSt where
  memory : List Message
  maxMemory : Nat
  sessions : Option SessionStore
deriving DecidableEq

/-- `Agent.remember`: append to the bounded buffer, then fan the
message out to the session store (ignoring persistence errors). -/
def rememberAgent (now : Nat) (a : AgentSt) (m : Message) : AgentSt :=
  { a with
    memory := rememberMemory a.maxMemory a.memory m,
    sessions := a.sessions.map (fun st => persistMessage now st m) }

/-- `Agent.Stats` rendered by the `/status` reply
(`fmt.Sprintf` with decimal numbers). -/
def statusReply (a : AgentSt) : String :=
  let storedSessions := match a.sessions with
    | none => 0
    | some st => sessionCount st
  let storedMessages := match a.sessions with
    | none => 0
    | some st => totalMessageCount st
  "ClawKangsar status: memory=" ++ Nat.repr a.memory.length ++
    " sessions=" ++ Nat.repr storedSessions ++
    " stored_messages=" ++ Nat.repr storedMessages

/-- The `/browse` branch and the default acknowledgment of
`Agent.Process` (reached when neither `/status` nor an enabled
`/fetch` matched). -/
def processBrowse (webFetch browser : Option (String → Except String String))
    (a1 : AgentSt) (text lower channel : String) (memorySize : Nat) :
    Except String String × AgentSt :=
  if goHasPrefix lower "/browse " then
    let target := trimSpace (stringDrop text 8)
    if target = "" then (.ok "Provide a URL after /browse.", a1)
    else
      let tryFetch : Option String :=
        match webFetch with
        | some f =>
          match f target with
          | .ok t => if trimSpace t ≠ "" then some t else none
          | .error _ => none
        | none => none
      match tryFetch with
      | some t => (.ok (truncate t 1200), a1)
      | none =>
        match browser with
        | none => (.ok "Browser tool unavailable.", a1)
        | some b =>
          match b target with
          | .error e => (.error ("browse failed: " ++ e), a1)
          | .ok t => (.ok (truncate t 1200), a1)
  else
    (.ok ("ClawKangsar ready. Channel=" ++ channel ++ " memory=" ++ Nat.repr memorySize), a1)

/-- The command dispatch of `Agent.Process` after normalisation and
`remember` (case-insensitive prefixes, in the Go code's order). -/
def processDispatch (webFetch browser : Option (String → Except String String))
    (a1 : AgentSt) (text lower channel : String) (memorySize : Nat) :
    Except String String × AgentSt :=
  if goHasPrefix lower "/status" then (.ok (statusReply a1), a1)
  else
    match webFetch, goHasPrefix lower "/fetch " with
    | some f, true =>
      let target := trimSpace (stringDrop text 7)
      if target = "" then (.ok "Provide a URL after /fetch.", a1)
      else
        match f target with
        | .error e => (.error e, a1)
        | .ok t => (.ok (truncate t 1200), a1)
    | _, _ => processBrowse webFetch browser a1 text lower channel memorySize

/-- `Agent.Process`: trim the text, default a zero timestamp to now,
return an empty reply for empty text (performing no remember), else
remember the message and dispatch on its command prefix. -/
def processModel (webFetch browser : Option (String → Except String String))
    (now : Nat) (a : AgentSt) (msg : Message) : Except String String × AgentSt :=
  let text := trimSpace msg.text
  if text = "" then (.ok "", a)
  else
    let msg' := { msg with
      text := text,
      timestamp := if msg.timestamp = 0 then now else msg.timestamp }
    let a1 := rememberAgent now a msg'
    let memorySize := a1.memory.length
    let lower := goToLower text
    processDispatch webFetch browser a1 text lower msg.channel memorySize

section KeyDerivation

/-- C4 (amended): the derived session key is channel:chat when both the
channel and chat identifiers are non-blank (non-empty after whitespace
trimming); otherwise "user:" followed by the trimmed user identifier
when that is non-blank; otherwise "global". -/
theorem messageSessionKey_spec :
    (∀ m : Message, trimSpace m.channel ≠ "" → trimSpace m.chatID ≠ "" →
      messageSessionKey m = m.channel ++ ":" ++ m.chatID) ∧
    (∀ m : Message, (trimSpace m.channel = "" ∨ trimSpace m.chatID = "") →
      trimSpace m.userID ≠ "" → messageSessionKey m = "user:" ++ trimSpace m.userID) ∧
    (∀ m : Message, (trimSpace m.channel = "" ∨ trimSpace m.chatID = "") →
      trimSpace m.userID = "" → messageSessionKey m = "global") := by
  refine ⟨fun m h1 h2 => ?_, fun m h1 h2 => ?_, fun m h1 h2 => ?_⟩
  · simp [messageSessionKey, h1, h2]
  · have : ¬ (trimSpace m.channel ≠ "" ∧ trimSpace m.chatID ≠ "") := by tauto
    simp [messageSessionKey, this, h2]
  · have : ¬ (trimSpace m.channel ≠ "" ∧ trimSpace m.chatID ≠ "") := by tauto
    simp [messageSessionKey, this, h1, h2]

/-- C4 witness: concrete instantiations of all three branches. -/
theorem messageSessionKey_spec_witness :
    messageSessionKey ⟨"telegram", "", "42", "x", 0⟩ = "telegram" ++ ":" ++ "42" ∧
    messageSessionKey ⟨"", "bob", "", "x", 0⟩ = "user:" ++ trimSpace "bob" ∧
    messageSessionKey ⟨"", "", "", "x", 0⟩ = "global" :=
  ⟨messageSessionKey_spec.1 ⟨"telegram", "", "42", "x", 0⟩ (by decide) (by decide),
   messageSessionKey_spec.2.1 ⟨"", "bob", "", "x", 0⟩ (Or.inl (by decide)) (by decide),
   messageSessionKey_spec.2.2 ⟨"", "", "", "x", 0⟩ (Or.inl (by decide)) (by decide)⟩

/-- C4 counterexample: for a message whose only identifier is the user
identifier " u " (present and non-blank), the claim says the key is
"user:" + user identifier = "user: u ", but the code trims the user
identifier and returns "user:u". -/
theorem messageSessionKey_claim_cex :
    messageSessionKey ⟨"", " u ", "", "x", 0⟩ = "user:u" ∧
    "user:u" ≠ "user:" ++ (Message.mk "" " u " "" "x" 0).userID := by
  constructor
  · rfl
  · decide

end KeyDerivation

section BoundedBuffer

/-- The buffer after any message sequence is the last `C` entries. -/
theorem foldl_rememberMemory (C : Nat) (hC : 1 ≤ C) (ms : List Message) :
    ms.foldl (rememberMemory C) [] = ms.drop (ms.length - C) := by
  induction ms using List.reverseRecOn with
  | nil => simp
  | append_singleton ms m ih =>
    rw [List.foldl_append, List.foldl_cons, List.foldl_nil, ih]
    unfold rememberMemory
    simp only [List.length_append, List.length_drop, List.length_cons, List.length_nil]
    by_cases h : ms.length < C
    · have h0 : ms.length - C = 0 := by omega
      rw [if_neg (by omega)]
      have h1 : ms.length + 1 - C = 0 := by omega
      rw [h0, h1, List.drop_zero, List.drop_zero]
    · have hlen : ms.length - (ms.length - C) = C := by omega
      rw [if_pos (by omega)]
      have e1 : ms.length - (ms.length - C) + (0 + 1) - C = 1 := by omega
      have e2 : ms.length + (0 + 1) - C = ms.length - C + 1 := by omega
      rw [e1, e2]
      rw [List.drop_append_of_le_length (by omega : ms.length - C + 1 ≤ ms.length)]
      rw [List.drop_append_of_le_length (by simp [List.length_drop]; omega)]
      rw [List.drop_drop]

/-- C5 (as claimed): with the agent's capacity C = 128, a sequence of
M processed messages leaves the in-memory buffer with exactly
min M C entries: all M in order when M ≤ C, and exactly the most
recent C in original order when M > C. -/
theorem boundedBuffer_spec :
    (∀ ms : List Message, newAgentMaxMemory < ms.length →
      (ms.foldl (rememberMemory newAgentMaxMemory) []).length = newAgentMaxMemory ∧
      ms.foldl (rememberMemory newAgentMaxMemory) [] = ms.drop (ms.length - newAgentMaxMemory)) ∧
    (∀ ms : List Message, ms.length ≤ newAgentMaxMemory →
      ms.foldl (rememberMemory newAgentMaxMemory) [] = ms) := by
  constructor
  · intro ms h
    have hfold := foldl_rememberMemory newAgentMaxMemory (by decide) ms
    refine ⟨?_, hfold⟩
    rw [hfold, List.length_drop]
    unfold newAgentMaxMemory at *
    omega
  · intro ms h
    have hfold := foldl_rememberMemory newAgentMaxMemory (by decide) ms
    rw [hfold]
    have : ms.length - newAgentMaxMemory = 0 := by omega
    rw [this, List.drop_zero]

/-- C5 witness: 130 identical messages leave a buffer of length 128
equal to the last 128 of the sequence; 2 messages are kept whole. -/
theorem boundedBuffer_spec_witness :
    ((List.replicate 130 (Message.mk "c" "u" "i" "t" 0)).foldl
        (rememberMemory newAgentMaxMemory) []).length = newAgentMaxMemory ∧
    (List.replicate 130 (Message.mk "c" "u" "i" "t" 0)).foldl
        (rememberMemory newAgentMaxMemory) [] =
      (List.replicate 130 (Message.mk "c" "u" "i" "t" 0)).drop
        (130 - newAgentMaxMemory) ∧
    (List.replicate 2 (Message.mk "c" "u" "i" "t" 0)).foldl
        (rememberMemory newAgentMaxMemory) [] =
      List.replicate 2 (Message.mk "c" "u" "i" "t" 0) := by
  have h1 := boundedBuffer_spec.1 (List.replicate 130 (Message.mk "c" "u" "i" "t" 0))
    (by simp [newAgentMaxMemory])
  have h2 := boundedBuffer_spec.2 (List.replicate 2 (Message.mk "c" "u" "i" "t" 0))
    (by simp [newAgentMaxMemory])
  refine ⟨h1.1, ?_, h2⟩
  have := h1.2
  simpa using this

end BoundedBuffer

section BlankKey

/-- C10: a blank (empty or whitespace-only) session key is stored and
read back as the key "global": `AddMessage` with a blank key behaves
exactly like `AddMessage` with "global", and `History` of a blank key
is the history of "global". -/
theorem blankKey_global_spec :
    ∀ (now : Nat) (st : SessionStore) (k : String) (m : Message),
      trimSpace k = "" →
      addMessage now st k m = addMessage now st "global" m ∧
      history st k = history st "global" := by
  intro now st k m hk
  have hck : canonicalKey k = canonicalKey "global" := by
    unfold canonicalKey
    rw [hk]
    rfl
  constructor
  · unfold addMessage
    rw [hck]
  · unfold history
    rw [hck]

/-- C10 witness: the whitespace-only key "  " on a concrete store. -/
theorem blankKey_global_spec_witness :
    addMessage 0 ⟨"", [], []⟩ "  " ⟨"t", "", "1", "x", 0⟩ =
      addMessage 0 ⟨"", [], []⟩ "global" ⟨"t", "", "1", "x", 0⟩ ∧
    history ⟨"", [], []⟩ "  " = history ⟨"", [], []⟩ "global" :=
  blankKey_global_spec 0 ⟨"", [], []⟩ "  " ⟨"t", "", "1", "x", 0⟩ (by decide)

end BlankKey

section Truncation

/-- C7: replies derived from tool text are capped at 1200 characters:
text of length L ≤ 1200 is returned unchanged, text of length L > 1200
is returned as its first 1200 characters plus the three-character
marker "..." (total length 1200 + 3); and `Process` returns exactly
`truncate text 1200` for successful `/fetch` and `/browse` tool
results. -/
theorem truncation_spec :
    (∀ t : String, t.length ≤ 1200 → truncate t 1200 = t) ∧
    (∀ t : String, 1200 < t.length →
      truncate t 1200 = stringTake t 1200 ++ "..." ∧
      (truncate t 1200).length = 1200 + 3) ∧
    (∀ (f : String → Except String String) (a : AgentSt) (now : Nat) (m : Message)
        (text : String), m.text = "/fetch example.com" → f "example.com" = .ok text →
      (processModel (some f) none now a m).1 = .ok (truncate text 1200)) ∧
    (∀ (b : String → Except String String) (a : AgentSt) (now : Nat) (m : Message)
        (text : String), m.text = "/browse example.com" → b "example.com" = .ok text →
      (processModel none (some b) now a m).1 = .ok (truncate text 1200)) := by
  refine ⟨fun t h => ?_, fun t h => ?_, ?_, ?_⟩
  · unfold truncate
    rw [if_pos h]
  · unfold truncate
    rw [if_neg (by omega)]
    refine ⟨rfl, ?_⟩
    rw [String.length_append]
    have h1 : (stringTake t 1200).length = min 1200 t.length := by
      show (t.data.take 1200).length = min 1200 t.length
      rw [List.length_take]
      rfl
    have h2 : ("..." : String).length = 3 := rfl
    rw [h1, h2]
    omega
  · intro f a now m text h hf
    obtain ⟨ch, uid, cid, tx, ts⟩ := m
    dsimp only at h
    subst h
    have h1 : trimSpace "/fetch example.com" = "/fetch example.com" := rfl
    have h2 : goToLower "/fetch example.com" = "/fetch example.com" := rfl
    have h3 : goHasPrefix "/fetch example.com" "/status" = false := rfl
    have h4 : goHasPrefix "/fetch example.com" "/fetch " = true := rfl
    have h5 : stringDrop "/fetch example.com" 7 = "example.com" := rfl
    have h6 : trimSpace "example.com" = "example.com" := rfl
    simp +decide [processModel, processDispatch, processBrowse, h1, h2, h3, h4, h5, h6, hf]
  · intro b a now m text h hb
    obtain ⟨ch, uid, cid, tx, ts⟩ := m
    dsimp only at h
    subst h
    have h1 : trimSpace "/browse example.com" = "/browse example.com" := rfl
    have h2 : goToLower "/browse example.com" = "/browse example.com" := rfl
    have h3 : goHasPrefix "/browse example.com" "/status" = false := rfl
    have h4 : goHasPrefix "/browse example.com" "/fetch " = false := rfl
    have h5 : goHasPrefix "/browse example.com" "/browse " = true := rfl
    have h6 : stringDrop "/browse example.com" 8 = "example.com" := rfl
    have h7 : trimSpace "example.com" = "example.com" := rfl
    simp +decide [processModel, processDispatch, processBrowse, h1, h2, h3, h4, h5, h6, h7, hb]

/-- C7 witness: a short text passes through unchanged; a 1201-character
text is cut to length 1203; a concrete `/fetch` reply equals the
truncated tool text. -/
theorem truncation_spec_witness :
    truncate "hello" 1200 = "hello" ∧
    (truncate ⟨List.replicate 1201 'a'⟩ 1200).length = 1200 + 3 ∧
    (processModel (some (fun _ => Except.ok "hello")) none 0 ⟨[], 128, none⟩
      ⟨"telegram", "", "42", "/fetch example.com", 3⟩).1 = .ok (truncate "hello" 1200) := by
  refine ⟨truncation_spec.1 "hello" (by decide), ?_, ?_⟩
  · have hlen : (String.mk (List.replicate 1201 'a')).length = 1201 := by
      show (List.replicate 1201 'a').length = 1201
      rw [List.length_replicate]
    exact (truncation_spec.2.1 ⟨List.replicate 1201 'a'⟩ (by rw [hlen]; omega)).2
  · exact truncation_spec.2.2.1 (fun _ => Except.ok "hello") ⟨[], 128, none⟩ 0
      ⟨"telegram", "", "42", "/fetch example.com", 3⟩ "hello" rfl rfl

end Truncation

section FetchUsageHint

/-- C9 (the code at the failing input): with a fetch tool configured, a
message whose text is the bare command "/fetch" (or "/fetch" followed
only by whitespace — `Process` trims the text first, so these
coincide) is answered by the default acknowledgment, not by the usage
hint; the hint branch is unreachable because a trimmed text can never
both match the prefix "/fetch " and have a blank remainder. -/
theorem fetchBare_default_ack :
    (processModel (some (fun _ => Except.ok "hello")) none 0 ⟨[], 128, none⟩
      ⟨"telegram", "", "42", "/fetch", 3⟩).1 =
      .ok "ClawKangsar ready. Channel=telegram memory=1" ∧
    (processModel (some (fun _ => Except.ok "hello")) none 0 ⟨[], 128, none⟩
      ⟨"telegram", "", "42", "/fetch   ", 3⟩).1 =
      .ok "ClawKangsar ready. Channel=telegram memory=1" ∧
    "ClawKangsar ready. Channel=telegram memory=1" ≠ "Provide a URL after /fetch." := by
  refine ⟨rfl, rfl, by decide⟩

end FetchUsageHint

section SingleFlight

/-- Once a handle is live, every further acquire returns it unchanged. -/
theorem runAcquires_live (o : Nat → Bool) (n : Nat) (b : BrowserState) (h : Nat)
    (hb : b.browserCtx = some h) :
    runAcquires o n b = (List.replicate n (Except.ok h), b) := by
  induction n with
  | zero => simp [runAcquires]
  | succ n ih =>
    have hacq : acquireBrowser o b = (Except.ok h, b) := by
      unfold acquireBrowser
      rw [hb]
    simp [runAcquires, hacq, ih, List.replicate_succ]

/-- When every start attempt fails, each call that finds no live
handle performs its own fresh start attempt. -/
theorem runAcquires_allFail (o : Nat → Bool) (hf : ∀ i, o i = false) :
    ∀ (n k : Nat),
      runAcquires o n { browserCtx := none, startCount := k } =
        (List.replicate n (Except.error "start browser"),
         { browserCtx := none, startCount := k + n }) := by
  intro n
  induction n with
  | zero => intro k; simp [runAcquires]
  | succ n ih =>
    intro k
    have hacq : acquireBrowser o { browserCtx := none, startCount := k } =
        (Except.error "start browser", { browserCtx := none, startCount := k + 1 }) := by
      unfold acquireBrowser
      simp [hf k]
    show runAcquires o (n + 1) { browserCtx := none, startCount := k } = _
    unfold runAcquires
    rw [hacq]
    dsimp only
    rw [ih (k + 1), List.replicate_succ]
    have he : k + 1 + n = k + (n + 1) := by omega
    rw [he]

/-- C2 (amended): serialized `Acquire` calls from the no-handle state
(the instance mutex is held for the whole call, so concurrent calls
execute in sequence, and the single `browserCtx` field means at most
one live handle ever exists): when the first start attempt succeeds,
exactly one start occurs and all N calls return that same handle; but
when start attempts fail, each call that finds no live handle performs
its own fresh start attempt — N calls cause N starts, each returning
its own startup error, so single-flight holds only for the success
path. -/
theorem acquire_single_flight_spec :
    (∀ (o : Nat → Bool) (n : Nat), o 0 = true →
      runAcquires o (n + 1) initBrowserState =
        (List.replicate (n + 1) (Except.ok 0),
         { browserCtx := some 0, startCount := 1 })) ∧
    (∀ (o : Nat → Bool) (n : Nat), (∀ i, o i = false) →
      runAcquires o n initBrowserState =
        (List.replicate n (Except.error "start browser"),
         { browserCtx := none, startCount := n })) := by
  constructor
  · intro o n h
    have hacq : acquireBrowser o initBrowserState =
        (Except.ok 0, { browserCtx := some 0, startCount := 1 }) := by
      unfold acquireBrowser initBrowserState
      simp [h]
    have hlive := runAcquires_live o n { browserCtx := some 0, startCount := 1 } 0 rfl
    unfold runAcquires
    rw [hacq]
    dsimp only
    rw [hlive, List.replicate_succ]
  · intro o n h
    have := runAcquires_allFail o h n 0
    simpa using this

/-- C2 witness: three serialized calls with a succeeding start give one
start and three identical handles; two calls with failing starts give
two start attempts. -/
theorem acquire_single_flight_spec_witness :
    runAcquires (fun _ => true) 3 initBrowserState =
      (List.replicate 3 (Except.ok 0), { browserCtx := some 0, startCount := 1 }) ∧
    runAcquires (fun _ => false) 2 initBrowserState =
      (List.replicate 2 (Except.error "start browser"),
       { browserCtx := none, startCount := 2 }) :=
  ⟨acquire_single_flight_spec.1 (fun _ => true) 2 rfl,
   acquire_single_flight_spec.2 (fun _ => false) 2 (fun _ => rfl)⟩

/-- C2 counterexample: two concurrent (serialized) `Acquire` calls
while no handle exists, with the underlying start failing, perform two
underlying start attempts, not the exactly-one start the claim
asserts. -/
theorem acquire_claim_cex :
    (runAcquires (fun _ => false) 2 initBrowserState).2.startCount = 2 ∧
    (runAcquires (fun _ => false) 2 initBrowserState).2.startCount ≠ 1 := by
  decide

end SingleFlight

section AtomicSave

/-- Any operation other than the rename leaves the target file
untouched. -/
theorem applyOp_target (fs : FileSystem) (op : FileOp) (h : op ≠ FileOp.renameTemp) :
    (applyOp fs op).target = fs.target := by
  cases op with
  | createTemp => rfl
  | writeTemp d => rfl
  | chmodTemp => rfl
  | syncTemp => rfl
  | closeTemp => rfl
  | renameTemp => exact absurd rfl h
  | removeTemp => rfl

/-- Any operation sequence avoiding the rename leaves the target file
untouched. -/
theorem applyOps_target_no_rename :
    ∀ (ops : List FileOp) (fs : FileSystem), (∀ op ∈ ops, op ≠ FileOp.renameTemp) →
      (applyOps fs ops).target = fs.target := by
  intro ops
  induction ops with
  | nil => intro fs _; rfl
  | cons op rest ih =>
    intro fs h
    show (applyOps (applyOp fs op) rest).target = fs.target
    rw [ih (applyOp fs op) (fun x hx => h x (List.mem_cons_of_mem op hx))]
    exact applyOp_target fs op (h op (List.mem_cons_self op rest))

/-- A completed `Save` run installs the full payload. -/
theorem applyOps_saveOps (fs : FileSystem) (payload : String) :
    applyOps fs (saveOps payload) = { target := some payload, temp := none } := by
  show ({ target := some ("" ++ payload), temp := none } : FileSystem) = _
  have : "" ++ payload = payload := by
    cases payload with
    | mk data => rfl
  rw [this]

/-- A `Save` run interrupted before the rename (any strict prefix of
the operation sequence up to and including the close) leaves the
previous target intact. -/
theorem applyOps_saveOps_take (fs : FileSystem) (payload : String) (k : Nat) (hk : k ≤ 5) :
    (applyOps fs ((saveOps payload).take k)).target = fs.target := by
  apply applyOps_target_no_rename
  intro op hop
  have h5 : (saveOps payload).take k = ((saveOps payload).take 5).take k := by
    rw [List.take_take]
    congr 1
    omega
  rw [h5] at hop
  have hmem : op ∈ (saveOps payload).take 5 := List.take_subset k _ hop
  have h55 : (saveOps payload).take 5 =
      [FileOp.createTemp, FileOp.writeTemp payload, FileOp.chmodTemp,
       FileOp.syncTemp, FileOp.closeTemp] := rfl
  rw [h55] at hmem
  simp only [List.mem_cons, List.not_mem_nil, or_false] at hmem
  rcases hmem with h | h | h | h | h <;> simp [h]

/-- C1: the `Save` body (after validity check and marshalling) runs
create-temp, write-full-payload, chmod, sync, close, rename in order;
(a) the completed run atomically installs the new snapshot as the
target file; (b) any run of file operations that never reaches the
rename — an error return or a kill at any earlier step — leaves the
previously persisted target file unchanged; (c) interrupting the
`saveOps` sequence at any step boundary leaves the target unchanged
until the rename has run; (d) hence after any interruption point the
target file is either the previous snapshot or the complete new
payload, never a partial write. -/
theorem save_atomic_spec :
    (∀ (fs : FileSystem) (payload : String),
      applyOps fs (saveOps payload) = { target := some payload, temp := none }) ∧
    (∀ (fs : FileSystem) (ops : List FileOp), (∀ op ∈ ops, op ≠ FileOp.renameTemp) →
      (applyOps fs ops).target = fs.target) ∧
    (∀ (fs : FileSystem) (payload : String) (k : Nat), k ≤ 5 →
      (applyOps fs ((saveOps payload).take k)).target = fs.target) ∧
    (∀ (fs : FileSystem) (payload : String) (k : Nat),
      (applyOps fs ((saveOps payload).take k)).target = fs.target ∨
      (applyOps fs ((saveOps payload).take k)).target = some payload) := by
  refine ⟨applyOps_saveOps, fun fs ops h => applyOps_target_no_rename ops fs h,
    fun fs payload k hk => applyOps_saveOps_take fs payload k hk, ?_⟩
  intro fs payload k
  by_cases hk : k ≤ 5
  · exact Or.inl (applyOps_saveOps_take fs payload k hk)
  · right
    have hlen : (saveOps payload).length ≤ k := by
      show 6 ≤ k
      omega
    rw [List.take_of_length_le hlen, applyOps_saveOps]

/-- C1 witness: a concrete previous snapshot survives interruption
after the sync step, and the completed run replaces it. -/
theorem save_atomic_spec_witness :
    applyOps ⟨some "old", none⟩ (saveOps "new") = ⟨some "new", none⟩ ∧
    (applyOps ⟨some "old", none⟩ ((saveOps "new").take 4)).target = some "old" ∧
    (applyOps ⟨some "old", none⟩ [FileOp.createTemp, FileOp.writeTemp "new",
      FileOp.removeTemp]).target = some "old" :=
  ⟨save_atomic_spec.1 ⟨some "old", none⟩ "new",
   save_atomic_spec.2.2.1 ⟨some "old", none⟩ "new" 4 (by omega),
   save_atomic_spec.2.1 ⟨some "old", none⟩
     [FileOp.createTemp, FileOp.writeTemp "new", FileOp.removeTemp] (by decide)⟩

end AtomicSave

section URLValidation

/-- C6: URL normalization trims the input; a trimmed non-empty value
(with "https://" prepended when it has no scheme separator) must parse
with scheme http or https and a non-empty host for the fetch to
proceed; on a validation error `Fetch` performs no request at all.  In
particular "example.com" normalizes to "https://example.com" and is
accepted, while "", "ftp://x.com" and "https://" (empty host) are all
rejected. -/
theorem normalizeWebURL_spec :
    (∀ (raw t : String), normalizeWebURL raw = .ok t →
      trimSpace raw ≠ "" ∧
      ∃ u : GoURL, parseURL (ensureScheme (trimSpace raw)) = .ok u ∧
        (u.scheme = "http" ∨ u.scheme = "https") ∧ u.host ≠ "" ∧ t = urlString u) ∧
    (∀ (raw e : String) (transport : String → Except String String),
      normalizeWebURL raw = .error e → webFetchFetch transport raw = (.error e, 0)) ∧
    normalizeWebURL "example.com" = .ok "https://example.com" ∧
    normalizeWebURL "" = .error "url is required" ∧
    normalizeWebURL "ftp://x.com" = .error "only http/https urls are supported" ∧
    normalizeWebURL "https://" = .error "url host is required" := by
  refine ⟨?_, ?_, rfl, rfl, rfl, rfl⟩
  · intro raw t h
    simp only [normalizeWebURL] at h
    by_cases h0 : trimSpace raw = ""
    · rw [if_pos h0] at h
      exact absurd h (by simp)
    · rw [if_neg h0] at h
      refine ⟨h0, ?_⟩
      cases hp : parseURL (ensureScheme (trimSpace raw)) with
      | error e =>
        rw [hp] at h
        exact absurd h (by simp)
      | ok parsed =>
        rw [hp] at h
        dsimp only at h
        by_cases hs : parsed.scheme ≠ "http" ∧ parsed.scheme ≠ "https"
        · rw [if_pos hs] at h
          exact absurd h (by simp)
        · rw [if_neg hs] at h
          by_cases hh : parsed.host = ""
          · rw [if_pos hh] at h
            exact absurd h (by simp)
          · rw [if_neg hh] at h
            refine ⟨parsed, rfl, ?_, hh, ?_⟩
            · rw [not_and_or, not_not, not_not] at hs
              exact hs
            · injection h with h'
              exact h'.symm
  · intro raw e transport h
    unfold webFetchFetch
    rw [h]

/-- C6 witness: the accepted example and a rejected input on which the
fetch performs zero requests. -/
theorem normalizeWebURL_spec_witness :
    (trimSpace "example.com" ≠ "" ∧
      ∃ u : GoURL, parseURL (ensureScheme (trimSpace "example.com")) = .ok u ∧
        (u.scheme = "http" ∨ u.scheme = "https") ∧ u.host ≠ "" ∧
        "https://example.com" = urlString u) ∧
    webFetchFetch (fun _ => Except.ok "body") "ftp://x.com" =
      (.error "only http/https urls are supported", 0) :=
  ⟨normalizeWebURL_spec.1 "example.com" "https://example.com" rfl,
   normalizeWebURL_spec.2.1 "ftp://x.com" "only http/https urls are supported"
     (fun _ => Except.ok "body") rfl⟩

end URLValidation

section InvalidKey

/-- C8 (amended): with a storage root configured, `AddMessage` on a
session key whose sanitized filename is invalid ("." , non-local, or
containing a path separator) still appends the message to the
in-memory session map exactly as for a valid key, and only then fails
the persist step: it returns the invalid-argument error and writes
nothing at all to disk (inside or outside the storage root).  Colons
are not rejected: the sanitized filename never contains a colon (it is
substituted with an underscore). -/
theorem addMessage_invalid_key_spec :
    (∀ (now : Nat) (st : SessionStore) (k : String) (m : Message),
      st.storage ≠ "" →
      validSaveFilename (sanitizeSessionFilename (canonicalKey k)) = false →
      (addMessage now st k m).2 = .error "invalid argument" ∧
      ((addMessage now st k m).1).disk = st.disk ∧
      ((addMessage now st k m).1).sessions =
        appendToSession now m st.sessions (canonicalKey k)) ∧
    (∀ key : String, ':' ∉ (sanitizeSessionFilename key).data) := by
  constructor
  · intro now st k m h1 h2
    have hcond : invalidSaveFilename (sanitizeSessionFilename (canonicalKey k)) = true := by
      cases hb : invalidSaveFilename (sanitizeSessionFilename (canonicalKey k)) with
      | false =>
        unfold validSaveFilename at h2
        rw [hb] at h2
        simp at h2
      | true => rfl
    simp only [addMessage, saveSession]
    rw [if_neg (by simpa using h1), if_pos hcond]
    exact ⟨rfl, rfl, rfl⟩
  · intro key hmem
    have : ':' ∈ (trimSpace key).data.map (fun c => if c = ':' then '_' else c) := hmem
    rw [List.mem_map] at this
    obtain ⟨x, _, hfx⟩ := this
    by_cases hx : x = ':'
    · rw [if_pos hx] at hfx
      exact absurd hfx (by decide)
    · rw [if_neg hx] at hfx
      exact hx hfx

/-- C8 witness: the traversal-capable key "a/b" on a concrete store
with storage root "data", and colon-freedom of the sanitized filename
of "telegram:42". -/
theorem addMessage_invalid_key_spec_witness :
    ((addMessage 0 ⟨"data", [], []⟩ "a/b" ⟨"t", "", "1", "x", 0⟩).2 =
        .error "invalid argument" ∧
      ((addMessage 0 ⟨"data", [], []⟩ "a/b" ⟨"t", "", "1", "x", 0⟩).1).disk = [] ∧
      ((addMessage 0 ⟨"data", [], []⟩ "a/b" ⟨"t", "", "1", "x", 0⟩).1).sessions =
        appendToSession 0 ⟨"t", "", "1", "x", 0⟩ [] (canonicalKey "a/b")) ∧
    ':' ∉ (sanitizeSessionFilename "telegram:42").data :=
  ⟨addMessage_invalid_key_spec.1 0 ⟨"data", [], []⟩ "a/b" ⟨"t", "", "1", "x", 0⟩
      (by decide) (by decide),
   addMessage_invalid_key_spec.2 "telegram:42"⟩

/-- C8 counterexample: `AddMessage` on the invalid key "a/b" (path
separator) does return an error, but the in-memory session map is not
unchanged: a session is created and the message appended, so
`SessionCount` goes from 0 to 1, contradicting the claim's
"rejected before any side effect". -/
theorem addMessage_reject_claim_cex :
    (addMessage 0 ⟨"data", [], []⟩ "a/b" ⟨"t", "", "1", "x", 0⟩).2 =
      .error "invalid argument" ∧
    sessionCount (addMessage 0 ⟨"data", [], []⟩ "a/b" ⟨"t", "", "1", "x", 0⟩).1 = 1 ∧
    sessionCount ⟨"data", [], []⟩ = 0 :=
  ⟨rfl, rfl, rfl⟩

end InvalidKey

section FanOut

/-- Messages stored under a key in the session map ([] when absent). -/
def sessionMessages (l : List (String × Session)) (q : String) : List Message :=
  match lookupSession l q with
  | none => []
  | some s => s.messages

theorem history_eq_sessionMessages (st : SessionStore) (q : String) :
    history st q = sessionMessages st.sessions (canonicalKey q) := rfl

theorem sessionMessages_nil (q : String) : sessionMessages [] q = [] := rfl

theorem sessionMessages_cons (k : String) (s : Session) (rest : List (String × Session)) (q : String) :
    sessionMessages ((k, s) :: rest) q =
      if k = q then s.messages else sessionMessages rest q := by
  by_cases h : k = q
  · unfold sessionMessages lookupSession
    rw [List.find?_cons_of_pos _ (by simp [h]), if_pos h]
    rfl
  · rw [if_neg h]
    unfold sessionMessages lookupSession
    rw [List.find?_cons_of_neg _ (by simp [h])]

/-- Appending a message touches exactly the target key's history. -/
theorem sessionMessages_appendToSession (now : Nat) (m : Message)
    (l : List (String × Session)) (key q : String) :
    sessionMessages (appendToSession now m l key) q =
      if q = key then sessionMessages l q ++ [m] else sessionMessages l q := by
  induction l with
  | nil =>
    have hnil : appendToSession now m [] key =
        [(key, { key := key, messages := [m], created := now, updated := now })] := rfl
    rw [hnil, sessionMessages_cons, sessionMessages_nil]
    by_cases h : q = key
    · rw [if_pos h.symm, if_pos h]
      rfl
    · rw [if_neg (fun hc => h hc.symm), if_neg h]
  | cons e rest ih =>
    obtain ⟨k, s⟩ := e
    simp only [appendToSession]
    by_cases hk : k = key
    · rw [if_pos hk, sessionMessages_cons, sessionMessages_cons]
      by_cases hq : k = q
      · have hqk : q = key := by rw [← hq, hk]
        rw [if_pos hq, if_pos hq, if_pos hqk]
      · have hqk : ¬ q = key := fun hc => hq (by rw [hk, ← hc])
        rw [if_neg hq, if_neg hq, if_neg hqk]
    · rw [if_neg hk, sessionMessages_cons, sessionMessages_cons, ih]
      by_cases hq : k = q
      · have hqk : ¬ q = key := fun hc => hk (hq.trans hc)
        rw [if_pos hq, if_pos hq, if_neg hqk]
      · rw [if_neg hq, if_neg hq]

/-- `Save` never changes the in-memory session map. -/
theorem saveSession_sessions (st : SessionStore) (k : String) :
    ((saveSession st k).1).sessions = st.sessions := by
  simp only [saveSession]
  split <;> first
    | rfl
    | (split <;> first
        | rfl
        | (split <;> rfl))

/-- The in-memory effect of `AddMessage`. -/
theorem addMessage_sessions (now : Nat) (st : SessionStore) (k : String) (m : Message) :
    ((addMessage now st k m).1).sessions =
      appendToSession now m st.sessions (canonicalKey k) := by
  unfold addMessage
  rw [saveSession_sessions]

theorem canonicalKey_global : canonicalKey "global" = "global" := rfl

/-- A non-global derived key contains a colon. -/
theorem colon_mem_messageSessionKey (m : Message) (h : messageSessionKey m ≠ "global") :
    ':' ∈ (messageSessionKey m).data := by
  unfold messageSessionKey at h ⊢
  by_cases h1 : trimSpace m.channel ≠ "" ∧ trimSpace m.chatID ≠ ""
  · rw [if_pos h1]
    rw [String.data_append, String.data_append]
    refine List.mem_append_left _ (List.mem_append_right _ ?_)
    decide
  · rw [if_neg h1] at h ⊢
    by_cases h2 : trimSpace m.userID ≠ ""
    · rw [if_pos h2]
      rw [String.data_append]
      refine List.mem_append_left _ ?_
      decide
    · rw [if_neg h2] at h
      exact absurd rfl h

/-- The canonical form of a non-global derived key stays non-global. -/
theorem canonicalKey_messageSessionKey_ne_global (m : Message)
    (h : messageSessionKey m ≠ "global") :
    canonicalKey (messageSessionKey m) ≠ "global" := by
  have hc : ':' ∈ (messageSessionKey m).data := colon_mem_messageSessionKey m h
  have hmem : ':' ∈ trimSpaceL (messageSessionKey m).data :=
    mem_trimSpaceL_of_mem _ _ hc rfl
  have hne : trimSpace (messageSessionKey m) ≠ "" := by
    intro hcon
    have : trimSpaceL (messageSessionKey m).data = ([] : List Char) :=
      congrArg String.data hcon
    rw [this] at hmem
    simp at hmem
  unfold canonicalKey
  rw [if_neg hne]
  intro hcon
  have : ':' ∈ ("global" : String).data := by
    have hdata : (trimSpace (messageSessionKey m)).data = ("global" : String).data :=
      congrArg String.data hcon
    rw [← hdata]
    exact hmem
  simp at this

/-- One fan-out step appends the message to the canonical derived-key
history and to the global history (which coincide when the derived key
is "global"), and to no other. -/
theorem sessionMessages_persistMessage (now : Nat) (st : SessionStore) (m : Message) (q : String) :
    sessionMessages ((persistMessage now st m).sessions) q =
      sessionMessages st.sessions q ++
        (if q = canonicalKey (messageSessionKey m) ∨ q = "global" then [m] else []) := by
  simp only [persistMessage]
  by_cases hg : messageSessionKey m = "global"
  · rw [if_neg (by simp [hg])]
    rw [addMessage_sessions, sessionMessages_appendToSession]
    have hcond : (q = canonicalKey (messageSessionKey m) ∨ q = "global") ↔ q = "global" := by
      rw [hg, canonicalKey_global]
      tauto
    by_cases hq : q = "global"
    · rw [if_pos (by rw [hg, canonicalKey_global]; exact hq), if_pos (hcond.mpr hq)]
    · rw [if_neg (by rw [hg, canonicalKey_global]; exact hq),
        if_neg (fun hc => hq (hcond.mp hc))]
      simp
  · rw [if_pos hg]
    rw [addMessage_sessions, canonicalKey_global, sessionMessages_appendToSession,
      addMessage_sessions, sessionMessages_appendToSession]
    have hck : canonicalKey (messageSessionKey m) ≠ "global" :=
      canonicalKey_messageSessionKey_ne_global m hg
    by_cases hq : q = "global"
    · rw [if_pos hq, if_neg (by rw [hq]; exact fun hc => hck hc.symm), if_pos (Or.inr hq)]
    · rw [if_neg hq]
      by_cases hq2 : q = canonicalKey (messageSessionKey m)
      · rw [if_pos hq2, if_pos (Or.inl hq2)]
      · rw [if_neg hq2, if_neg (by tauto)]
        simp

/-- Fan-out over a message sequence: each key's history is the ordered
subsequence of messages routed to it. -/
theorem sessionMessages_foldl_persist (now : Nat) (ms : List Message) :
    ∀ (st : SessionStore) (q : String),
      sessionMessages ((ms.foldl (persistMessage now) st).sessions) q =
        sessionMessages st.sessions q ++
          ms.filter (fun m => decide (q = canonicalKey (messageSessionKey m)) ||
            decide (q = "global")) := by
  induction ms with
  | nil =>
    intro st q
    simp
  | cons m ms ih =>
    intro st q
    rw [List.foldl_cons, ih, sessionMessages_persistMessage, List.filter_cons]
    by_cases h : q = canonicalKey (messageSessionKey m) ∨ q = "global"
    · rw [if_pos h]
      have hb : (decide (q = canonicalKey (messageSessionKey m)) ||
          decide (q = "global")) = true := by
        rcases h with h | h <;> simp [h]
      rw [if_pos hb]
      simp
    · rw [if_neg h]
      have hb : (decide (q = canonicalKey (messageSessionKey m)) ||
          decide (q = "global")) = false := by
        rcases not_or.mp h with ⟨h1, h2⟩
        simp [h1, h2]
      rw [if_neg (by simp [hb])]
      simp

/-- One in-memory append adds exactly one message to the store total. -/
theorem sum_appendToSession (now : Nat) (m : Message) (l : List (String × Session)) (key : String) :
    ((appendToSession now m l key).map (fun e => e.2.messages.length)).sum =
      (l.map (fun e => e.2.messages.length)).sum + 1 := by
  induction l with
  | nil => rfl
  | cons e rest ih =>
    obtain ⟨k, s⟩ := e
    simp only [appendToSession]
    by_cases hk : k = key
    · rw [if_pos hk]
      simp only [List.map_cons, List.sum_cons]
      have : ({ s with messages := s.messages ++ [m], updated := now } : Session).messages.length =
          s.messages.length + 1 := by
        show (s.messages ++ [m]).length = s.messages.length + 1
        simp
      rw [this]
      omega
    · rw [if_neg hk]
      simp only [List.map_cons, List.sum_cons, ih]
      omega

/-- One fan-out step stores the message twice when its derived key is
non-global, once otherwise. -/
theorem totalMessageCount_persistMessage (now : Nat) (st : SessionStore) (m : Message) :
    totalMessageCount (persistMessage now st m) =
      totalMessageCount st + (if messageSessionKey m ≠ "global" then 2 else 1) := by
  simp only [persistMessage]
  by_cases hg : messageSessionKey m = "global"
  · rw [if_neg (by simp [hg])]
    unfold totalMessageCount
    rw [addMessage_sessions, sum_appendToSession]
    rw [if_neg (by simp [hg])]
  · rw [if_pos hg]
    unfold totalMessageCount
    rw [addMessage_sessions, sum_appendToSession, addMessage_sessions, sum_appendToSession]
    rw [if_pos hg]

theorem totalMessageCount_foldl_persist (now : Nat) (ms : List Message) :
    ∀ st : SessionStore,
      totalMessageCount (ms.foldl (persistMessage now) st) =
        totalMessageCount st + ms.length +
          ms.countP (fun m => decide (messageSessionKey m ≠ "global")) := by
  induction ms with
  | nil => intro st; simp
  | cons m ms ih =>
    intro st
    rw [List.foldl_cons, ih, totalMessageCount_persistMessage, List.countP_cons,
      List.length_cons]
    by_cases h : messageSessionKey m ≠ "global"
    · have hd : (if decide (messageSessionKey m ≠ "global") = true then 1 else 0) = 1 := by
        simp [h]
      rw [if_pos h, hd]
      omega
    · have hg2 : messageSessionKey m = "global" := not_not.mp h
      have hd : (if decide (messageSessionKey m ≠ "global") = true then 1 else 0) = 0 := by
        simp [hg2]
      rw [if_neg h, hd]
      omega

/-- The store after processing a message sequence from an empty store
with the given storage root. -/
def finalStore (storage : String) (now : Nat) (ms : List Message) : SessionStore :=
  ms.foldl (persistMessage now) { storage := storage, sessions := [], disk := [] }

/-- C3 (amended): processing a message sequence from an empty store,
(i) History("global") returns every processed message in arrival
order; (ii) for a message whose derived key is not "global", History
of that derived key returns exactly the messages whose derived keys
are equal to it after whitespace-trim canonicalization (the store
trims session keys, so derived keys differing only in surrounding
whitespace share one session), in arrival order; (iii) the total
stored message count is M plus the number of messages with a
non-global derived key — each non-global message is persisted exactly
twice (derived key and "global"), each global-keyed message exactly
once. -/
theorem sessionFanout_spec :
    ∀ (storage : String) (now : Nat) (ms : List Message),
      history (finalStore storage now ms) "global" = ms ∧
      (∀ m : Message, messageSessionKey m ≠ "global" →
        history (finalStore storage now ms) (messageSessionKey m) =
          ms.filter (fun x => decide (canonicalKey (messageSessionKey x) =
            canonicalKey (messageSessionKey m)))) ∧
      totalMessageCount (finalStore storage now ms) =
        ms.length + ms.countP (fun m => decide (messageSessionKey m ≠ "global")) := by
  intro storage now ms
  refine ⟨?_, ?_, ?_⟩
  · rw [history_eq_sessionMessages, canonicalKey_global]
    unfold finalStore
    rw [sessionMessages_foldl_persist]
    rw [sessionMessages_nil]
    simp
  · intro m hm
    have hck : canonicalKey (messageSessionKey m) ≠ "global" :=
      canonicalKey_messageSessionKey_ne_global m hm
    rw [history_eq_sessionMessages]
    unfold finalStore
    rw [sessionMessages_foldl_persist]
    rw [sessionMessages_nil, List.nil_append]
    apply List.filter_congr
    intro x _
    have h2 : decide (canonicalKey (messageSessionKey m) = "global") = false :=
      decide_eq_false hck
    rw [h2, Bool.or_false]
    exact decide_eq_decide.mpr eq_comm
  · unfold finalStore
    rw [totalMessageCount_foldl_persist]
    have h0 : totalMessageCount { storage := storage, sessions := [], disk := [] } = 0 := rfl
    rw [h0]
    omega

/-- C3 witness: one telegram message lands in both the "telegram:42"
and "global" histories, and is counted twice. -/
theorem sessionFanout_spec_witness :
    history (finalStore "" 0 [⟨"telegram", "", "42", "hi", 0⟩]) "global" =
      [⟨"telegram", "", "42", "hi", 0⟩] ∧
    history (finalStore "" 0 [⟨"telegram", "", "42", "hi", 0⟩])
        (messageSessionKey ⟨"telegram", "", "42", "hi", 0⟩) =
      [⟨"telegram", "", "42", "hi", 0⟩].filter
        (fun x => decide (canonicalKey (messageSessionKey x) =
          canonicalKey (messageSessionKey ⟨"telegram", "", "42", "hi", 0⟩))) ∧
    totalMessageCount (finalStore "" 0 [⟨"telegram", "", "42", "hi", 0⟩]) = 2 := by
  have h := sessionFanout_spec "" 0 [⟨"telegram", "", "42", "hi", 0⟩]
  refine ⟨h.1, h.2.1 ⟨"telegram", "", "42", "hi", 0⟩ (by decide), ?_⟩
  rw [h.2.2]
  decide

/-- C3 counterexample: messages m1 (channel "t", chat "1") and m2
(channel "t", chat "1 ", trailing space) have different derived keys
"t:1" and "t:1 ", yet share the trimmed session "t:1"; History of
m1's derived key returns both messages, not exactly the messages sent
under that key, refuting the claim as literally stated. -/
theorem sessionFanout_claim_cex :
    messageSessionKey ⟨"t", "", "1", "a", 0⟩ = "t:1" ∧
    messageSessionKey ⟨"t", "", "1 ", "b", 0⟩ = "t:1 " ∧
    history (finalStore "" 0 [⟨"t", "", "1", "a", 0⟩, ⟨"t", "", "1 ", "b", 0⟩]) "t:1" =
      [⟨"t", "", "1", "a", 0⟩, ⟨"t", "", "1 ", "b", 0⟩] ∧
    ([⟨"t", "", "1", "a", 0⟩, ⟨"t", "", "1 ", "b", 0⟩] : List Message).filter
        (fun x => decide (messageSessionKey x = "t:1")) =
      [⟨"t", "", "1", "a", 0⟩] ∧
    ([⟨"t", "", "1", "a", 0⟩, ⟨"t", "", "1 ", "b", 0⟩] : List Message) ≠
      [⟨"t", "", "1", "a", 0⟩] := by
  refine ⟨rfl, rfl, by decide, by decide, by decide⟩

end FanOut
